import Mathlib

/-!
Verification of the session-tracking core of the hourtracker web client
(`src/src/App.jsx`): the date helpers (`dateHelpers`), the period
aggregation (`groupedSessions`), and the session lifecycle
(`startTracking` / `stopTracking` and the start/stop button dispatch).

Modelling conventions.

JavaScript `Date` values are modelled by `JSDate`: a day number since the
Unix epoch (1970-01-01) plus the milliseconds elapsed within that day.
The local time zone is taken to be UTC with no daylight-saving shifts, so
the local-time accessors (`getDay`, `getDate`, `setDate`, `setHours`) and
`toISOString` all agree on the same civil calendar.  JavaScript uses the
proleptic Gregorian calendar; `civilFromDays` / `daysFromCivil` below
implement that calendar by the standard 400-year-era / century /
quadrennium decomposition, which is extensionally the same conversion the
JS engine performs.  Numbers that the program only ever uses as integers
(day counts, milliseconds, minute totals) are modelled as `Int`/`Nat`.
-/

namespace HourTrack

/-- Milliseconds in one day. -/
def msPerDay : Nat := 86400000

/-- Model of a JavaScript `Date`: days since 1970-01-01 plus the
milliseconds within the day.  A well-formed value has `ms < msPerDay`. -/
structure JSDate where
  days : Int
  ms : Nat
  deriving Repr, DecidableEq

/-- The timestamp in milliseconds represented by a `JSDate`
(what JS `getTime()` returns). -/
def msOf (d : JSDate) : Int := d.days * (msPerDay : Int) + d.ms

/-! ### The proleptic Gregorian civil calendar

`civilFromDays` converts a day number to a civil `(year, month, day)`
triple; `daysFromCivil` is the inverse conversion.  The era of a day
number is its 400-year Gregorian cycle (eras are aligned to March 1 of
years divisible by 400); within an era the year is recovered by first
extracting the century and then the year of the century, each by a single
division, and the month/day are recovered from the day of the
(March-based) year. -/

/-- 400-year era of a day number (eras contain 146097 days each). -/
def civilEra (n : Int) : Int := (n + 719468) / 146097

/-- Day of the 400-year era, in `0..146096`. -/
def civilDoe (n : Int) : Nat := ((n + 719468) % 146097).toNat

/-- Century of the era of a day-of-era, in `0..3`. -/
def cOfDoe (doe : Nat) : Nat := (4 * doe + 3) / 146097

/-- Day of the century of a day-of-era, in `0..36524`. -/
def docOfDoe (doe : Nat) : Nat := doe - 36524 * cOfDoe doe

/-- Year of the century of a day-of-century, in `0..99`. -/
def yocOfDoc (doc : Nat) : Nat := (4 * doc + 3) / 1461

/-- Year of the era of a day-of-era, in `0..399`. -/
def yoeOfDoe (doe : Nat) : Nat := 100 * cOfDoe doe + yocOfDoc (docOfDoe doe)

/-- Day of the (March-based) year of a day-of-era, in `0..365`. -/
def doyOfDoe (doe : Nat) : Nat :=
  docOfDoe doe - (365 * yocOfDoc (docOfDoe doe) + yocOfDoc (docOfDoe doe) / 4)

/-- March-based month index of a day-of-year (March = 0), in `0..11`. -/
def mpOfDoy (doy : Nat) : Nat := (5 * doy + 2) / 153

/-- Day of the month of a day-of-year, in `1..31`. -/
def dayOfDoy (doy : Nat) : Nat := doy - (153 * mpOfDoy doy + 2) / 5 + 1

/-- Civil month (January = 1) of a day-of-year, in `1..12`. -/
def monthOfDoy (doy : Nat) : Nat :=
  if mpOfDoy doy < 10 then mpOfDoy doy + 3 else mpOfDoy doy - 9

/-- Convert a day number since 1970-01-01 to the proleptic Gregorian
civil date `(year, month, day)` (month in `1..12`, day in `1..31`).
This is what the JS `Date` accessors `getFullYear` / `getMonth` /
`getDate` report (with local time = UTC). -/
def civilFromDays (n : Int) : Int × Nat × Nat :=
  let doe := civilDoe n
  let doy := doyOfDoe doe
  let m := monthOfDoy doy
  let y := (yoeOfDoe doe : Int) + civilEra n * 400
  (if m ≤ 2 then y + 1 else y, m, dayOfDoy doy)

/-- Shifted (March-based) month index of a civil month. -/
def monthShift (m : Nat) : Nat := if 2 < m then m - 3 else m + 9

/-- Day of the (March-based) year of a civil month/day pair. -/
def doyFromMD (m d : Nat) : Nat := (153 * monthShift m + 2) / 5 + d - 1

/-- Day number of March 1 of the (adjusted) year `y'`, relative to the
era decomposition: `y'` is split into era and year-of-era. -/
def eraDays (y' : Int) : Int :=
  y' / 400 * 146097 +
    ((365 * (y' % 400).toNat + (y' % 400).toNat / 4 - (y' % 400).toNat / 100 : Nat) : Int) -
    719468

/-- Convert a proleptic Gregorian civil date to a day number since
1970-01-01 (the inverse of `civilFromDays`). -/
def daysFromCivil (y : Int) (m d : Nat) : Int :=
  eraDays (if m ≤ 2 then y - 1 else y) + (doyFromMD m d : Int)

/-! ### Bounds for the calendar decomposition -/

/-- The day of era is at most 146096. -/
theorem civilDoe_le (n : Int) : civilDoe n ≤ 146096 := by
  unfold civilDoe
  have h1 : (n + 719468) % 146097 < 146097 := Int.emod_lt_of_pos _ (by norm_num)
  have h2 : 0 ≤ (n + 719468) % 146097 := Int.emod_nonneg _ (by norm_num)
  omega

/-- Era and day-of-era decompose the day number. -/
theorem civilEra_doe (n : Int) :
    civilEra n * 146097 + (civilDoe n : Int) = n + 719468 := by
  unfold civilEra civilDoe
  have h2 : 0 ≤ (n + 719468) % 146097 := Int.emod_nonneg _ (by norm_num)
  have h3 : 146097 * ((n + 719468) / 146097) + (n + 719468) % 146097 = n + 719468 :=
    Int.ediv_add_emod _ _
  omega

/-- Century bounds: the century is at most 3 and the day of century is in
range. -/
theorem cOfDoe_bounds (doe : Nat) (h : doe ≤ 146096) :
    cOfDoe doe ≤ 3 ∧ 36524 * cOfDoe doe ≤ doe ∧ docOfDoe doe ≤ 36524 := by
  unfold cOfDoe docOfDoe cOfDoe
  omega

/-- Year-of-century bounds: the year of century is at most 99 and the
day-of-year offset is in range. -/
theorem yocOfDoc_bounds (doc : Nat) (h : doc ≤ 36524) :
    yocOfDoc doc ≤ 99 ∧ 365 * yocOfDoc doc + yocOfDoc doc / 4 ≤ doc ∧
      doc - (365 * yocOfDoc doc + yocOfDoc doc / 4) ≤ 365 := by
  unfold yocOfDoc
  omega

/-- The year of era is at most 399. -/
theorem yoeOfDoe_le (doe : Nat) (h : doe ≤ 146096) : yoeOfDoe doe ≤ 399 := by
  have h1 := cOfDoe_bounds doe h
  have h2 := yocOfDoc_bounds (docOfDoe doe) h1.2.2
  unfold yoeOfDoe
  omega

/-- The day of year is at most 365. -/
theorem doyOfDoe_le (doe : Nat) (h : doe ≤ 146096) : doyOfDoe doe ≤ 365 := by
  have h1 := cOfDoe_bounds doe h
  have h2 := yocOfDoc_bounds (docOfDoe doe) h1.2.2
  unfold doyOfDoe
  omega

/-- Dividing a year of era into century and year-of-century is compatible
with the leap-day corrections: reconstruction of the day of era. -/
theorem doe_reconstruct (doe : Nat) (h : doe ≤ 146096) :
    365 * yoeOfDoe doe + yoeOfDoe doe / 4 - yoeOfDoe doe / 100 + doyOfDoe doe = doe := by
  have h1 := cOfDoe_bounds doe h
  have h2 := yocOfDoc_bounds (docOfDoe doe) h1.2.2
  set c := cOfDoe doe with hc
  set doc := docOfDoe doe with hdoc
  set yoc := yocOfDoc doc with hyoc
  have hysum : yoeOfDoe doe = 100 * c + yoc := rfl
  have hdoy : doyOfDoe doe = doc - (365 * yoc + yoc / 4) := rfl
  have hdiv4 : (100 * c + yoc) / 4 = 25 * c + yoc / 4 := by
    rw [show 100 * c + yoc = 4 * (25 * c) + yoc by ring, Nat.mul_add_div (by norm_num)]
  have hdiv100 : (100 * c + yoc) / 100 = c := by
    rw [Nat.mul_add_div (by norm_num), Nat.div_eq_of_lt (by omega)]
    omega
  have hdocdef : doc = doe - 36524 * c := rfl
  rw [hysum, hdiv4, hdiv100, hdoy]
  omega

/-- Month-index bounds and the fact that the day-of-month offset stays
below the day of year. -/
theorem mpOfDoy_bounds (doy : Nat) (h : doy ≤ 365) :
    mpOfDoy doy ≤ 11 ∧ (153 * mpOfDoy doy + 2) / 5 ≤ doy := by
  unfold mpOfDoy
  omega

/-- The extracted day of month is at least 1 and at most 31. -/
theorem dayOfDoy_bounds (doy : Nat) (h : doy ≤ 365) :
    1 ≤ dayOfDoy doy ∧ dayOfDoy doy ≤ 31 := by
  unfold dayOfDoy mpOfDoy
  omega

/-- The extracted civil month is between 1 and 12. -/
theorem monthOfDoy_bounds (doy : Nat) (h : doy ≤ 365) :
    1 ≤ monthOfDoy doy ∧ monthOfDoy doy ≤ 12 := by
  unfold monthOfDoy mpOfDoy
  split <;> omega

/-- The shifted month of the extracted month is the original month index. -/
theorem monthShift_monthOfDoy (doy : Nat) (h : doy ≤ 365) :
    monthShift (monthOfDoy doy) = mpOfDoy doy := by
  unfold monthShift monthOfDoy mpOfDoy
  split_ifs <;> omega

/-- The extracted month is at most 2 exactly when the March-based month
index is at least 10. -/
theorem monthOfDoy_le_two_iff (doy : Nat) (h : doy ≤ 365) :
    monthOfDoy doy ≤ 2 ↔ 10 ≤ mpOfDoy doy := by
  unfold monthOfDoy mpOfDoy
  split <;> omega

/-- Month/day extraction round trip on the day of year. -/
theorem doyFromMD_dayOfDoy (doy : Nat) (h : doy ≤ 365) :
    doyFromMD (monthOfDoy doy) (dayOfDoy doy) = doy := by
  unfold doyFromMD
  rw [monthShift_monthOfDoy doy h]
  unfold dayOfDoy mpOfDoy
  omega

/-- Unfolding of `civilFromDays` into its components. -/
theorem civilFromDays_eq (n : Int) :
    civilFromDays n =
      (if monthOfDoy (doyOfDoe (civilDoe n)) ≤ 2
          then (yoeOfDoe (civilDoe n) : Int) + civilEra n * 400 + 1
          else (yoeOfDoe (civilDoe n) : Int) + civilEra n * 400,
        monthOfDoy (doyOfDoe (civilDoe n)), dayOfDoy (doyOfDoe (civilDoe n))) := rfl

/-- Evaluation of `eraDays` on an era/year-of-era decomposition. -/
theorem eraDays_decompose (era : Int) (yoe : Nat) (h : yoe ≤ 399) :
    eraDays ((yoe : Int) + era * 400) =
      era * 146097 + ((365 * yoe + yoe / 4 - yoe / 100 : Nat) : Int) - 719468 := by
  unfold eraDays
  have h1 : ((yoe : Int) + era * 400) / 400 = era := by omega
  have h2 : (((yoe : Int) + era * 400) % 400).toNat = yoe := by omega
  rw [h1, h2]

/-- Round trip: converting a day number to a civil date and back is the
identity.  This is the correctness of the year/month/day extraction. -/
theorem daysFromCivil_civilFromDays (n : Int) :
    daysFromCivil (civilFromDays n).1 (civilFromDays n).2.1 (civilFromDays n).2.2 = n := by
  have hdoe := civilDoe_le n
  have hdoy := doyOfDoe_le _ hdoe
  have hyoe := yoeOfDoe_le _ hdoe
  have hrec := doe_reconstruct _ hdoe
  have hmd := doyFromMD_dayOfDoy _ hdoy
  have hera := civilEra_doe n
  rw [civilFromDays_eq]
  by_cases hm : monthOfDoy (doyOfDoe (civilDoe n)) ≤ 2
  · simp only [if_pos hm]
    unfold daysFromCivil
    rw [if_pos hm, show (yoeOfDoe (civilDoe n) : Int) + civilEra n * 400 + 1 - 1 =
      (yoeOfDoe (civilDoe n) : Int) + civilEra n * 400 by ring, eraDays_decompose _ _ hyoe, hmd]
    omega
  · simp only [if_neg hm]
    unfold daysFromCivil
    rw [if_neg hm, eraDays_decompose _ _ hyoe, hmd]
    omega

/-- Bounds on the day of year produced by a civil month/day pair with a
day of month at most 16. -/
theorem doyFromMD_bounds (m d : Nat) (hm1 : 1 ≤ m) (hm2 : m ≤ 12)
    (hd1 : 1 ≤ d) (hd2 : d ≤ 16) :
    monthShift m ≤ 11 ∧ doyFromMD m d ≤ 352 := by
  unfold doyFromMD monthShift
  split <;> omega

/-- The March-based month index is recovered from the constructed day of
year (for days of month at most 16). -/
theorem mpOfDoy_doyFromMD (m d : Nat) (hm1 : 1 ≤ m) (hm2 : m ≤ 12)
    (hd1 : 1 ≤ d) (hd2 : d ≤ 16) :
    mpOfDoy (doyFromMD m d) = monthShift m := by
  have h := doyFromMD_bounds m d hm1 hm2 hd1 hd2
  unfold mpOfDoy doyFromMD at *
  omega

/-- The day of month is recovered from the constructed day of year. -/
theorem dayOfDoy_doyFromMD (m d : Nat) (hm1 : 1 ≤ m) (hm2 : m ≤ 12)
    (hd1 : 1 ≤ d) (hd2 : d ≤ 16) :
    dayOfDoy (doyFromMD m d) = d := by
  unfold dayOfDoy
  rw [mpOfDoy_doyFromMD m d hm1 hm2 hd1 hd2]
  unfold doyFromMD monthShift at *
  split <;> omega

/-- The civil month is recovered from the constructed day of year. -/
theorem monthOfDoy_doyFromMD (m d : Nat) (hm1 : 1 ≤ m) (hm2 : m ≤ 12)
    (hd1 : 1 ≤ d) (hd2 : d ≤ 16) :
    monthOfDoy (doyFromMD m d) = m := by
  unfold monthOfDoy
  rw [mpOfDoy_doyFromMD m d hm1 hm2 hd1 hd2]
  unfold monthShift
  split_ifs <;> omega

/-- Year-of-era and day-of-year extraction from a constructed day of era
(for day-of-year offsets at most 352, which covers days of month up to
16 in every month and year). -/
theorem extract_doe (yoe doy : Nat) (h1 : yoe ≤ 399) (h2 : doy ≤ 352) :
    yoeOfDoe (365 * yoe + yoe / 4 - yoe / 100 + doy) = yoe ∧
      doyOfDoe (365 * yoe + yoe / 4 - yoe / 100 + doy) = doy := by
  obtain ⟨cc, r, hcc, hr, hy⟩ : ∃ cc r, cc ≤ 3 ∧ r ≤ 99 ∧ yoe = 100 * cc + r :=
    ⟨yoe / 100, yoe % 100, by omega, by omega, by omega⟩
  subst hy
  clear h1
  generalize hgen : 365 * (100 * cc + r) + (100 * cc + r) / 4 - (100 * cc + r) / 100 + doy = doe
  replace hgen := hgen.symm
  have key : (4 * doe + 3) / 146097 = cc ∧ (4 * (doe - 36524 * cc) + 3) / 1461 = r ∧
      doe - 36524 * cc - (365 * r + r / 4) = doy := by
    have hq4 : (100 * cc + r) / 4 = 25 * cc + r / 4 := by
      rw [show 100 * cc + r = 4 * (25 * cc) + r by ring, Nat.mul_add_div (by norm_num)]
    have hq100 : (100 * cc + r) / 100 = cc := by
      rw [Nat.mul_add_div (by norm_num), Nat.div_eq_of_lt (by omega)]
      omega
    omega
  simp only [yoeOfDoe, doyOfDoe, docOfDoe, yocOfDoc, cOfDoe]
  rw [key.1, key.2.1]
  exact ⟨rfl, key.2.2⟩

/-- Era and day-of-era extraction from a recomposed day number. -/
theorem era_extract (era : Int) (doe : Nat) (h : doe ≤ 146096) :
    civilEra (era * 146097 + (doe : Int) - 719468) = era ∧
      civilDoe (era * 146097 + (doe : Int) - 719468) = doe := by
  unfold civilEra civilDoe
  constructor
  · omega
  · omega

/-- Round trip: converting a civil date (with day of month at most 16) to
a day number and back is the identity. -/
theorem civilFromDays_daysFromCivil (y : Int) (m d : Nat)
    (hm1 : 1 ≤ m) (hm2 : m ≤ 12) (hd1 : 1 ≤ d) (hd2 : d ≤ 16) :
    civilFromDays (daysFromCivil y m d) = (y, m, d) := by
  have hb := doyFromMD_bounds m d hm1 hm2 hd1 hd2
  obtain ⟨era, yoe, hyoe, hrep⟩ : ∃ (era : Int) (yoe : Nat), yoe ≤ 399 ∧
      (yoe : Int) + era * 400 = (if m ≤ 2 then y - 1 else y) := by
    refine ⟨(if m ≤ 2 then y - 1 else y) / 400,
      ((if m ≤ 2 then y - 1 else y) % 400).toNat, ?_, ?_⟩
    · have h1 := Int.emod_nonneg (if m ≤ 2 then y - 1 else y) (show (400 : Int) ≠ 0 by norm_num)
      have h2 := Int.emod_lt_of_pos (if m ≤ 2 then y - 1 else y) (show (0 : Int) < 400 by norm_num)
      omega
    · have h3 := Int.ediv_add_emod (if m ≤ 2 then y - 1 else y) 400
      have h1 := Int.emod_nonneg (if m ≤ 2 then y - 1 else y) (show (400 : Int) ≠ 0 by norm_num)
      omega
  have hdays : daysFromCivil y m d =
      era * 146097 + ((365 * yoe + yoe / 4 - yoe / 100 + doyFromMD m d : Nat) : Int) - 719468 := by
    unfold daysFromCivil
    rw [← hrep, eraDays_decompose era yoe hyoe]
    omega
  have hdoele : 365 * yoe + yoe / 4 - yoe / 100 + doyFromMD m d ≤ 146096 := by omega
  have hex := era_extract era _ hdoele
  have hext := extract_doe yoe (doyFromMD m d) hyoe hb.2
  rw [hdays, civilFromDays_eq, hex.1, hex.2, hext.1, hext.2,
    monthOfDoy_doyFromMD m d hm1 hm2 hd1 hd2, dayOfDoy_doyFromMD m d hm1 hm2 hd1 hd2]
  by_cases hm : m ≤ 2
  · rw [if_pos hm] at hrep ⊢
    rw [show (yoe : Int) + era * 400 + 1 = y by omega]
  · rw [if_neg hm] at hrep ⊢
    rw [hrep]

/-! ### JS `Date` accessors used by the source -/

/-- JS `getDay()`: day of week, `0` = Sunday (1970-01-01, day number 0,
was a Thursday, hence the offset 4). -/
def getDay (dt : JSDate) : Int := (dt.days + 4) % 7

/-- JS `getDate()`: civil day of month, in `1..31`. -/
def getDate (dt : JSDate) : Nat := (civilFromDays dt.days).2.2

/-- JS `setDate(x)`: replace the day of month by `x`, rolling into
neighbouring months when `x` is outside the month (JS normalises the
resulting date, which shifts the day number by exactly `x - getDate()`;
see `daysFromCivil_shift`).  The time of day is unchanged. -/
def setDate (dt : JSDate) (x : Int) : JSDate :=
  { dt with days := dt.days - (getDate dt : Int) + x }

/-- JS `setHours(0, 0, 0, 0)`: zero the time of day. -/
def setHoursZero (dt : JSDate) : JSDate := { dt with ms := 0 }

/-- The day-number conversion is linear in the day-of-month argument,
which justifies modelling `setDate` as a plain day-number shift. -/
theorem daysFromCivil_shift (y : Int) (m d k : Nat) (hd : 1 ≤ d) (hk : 1 ≤ k) :
    daysFromCivil y m k = daysFromCivil y m d - (d : Int) + (k : Int) := by
  unfold daysFromCivil doyFromMD
  omega

/-- The month and day of month produced by `civilFromDays` are in range. -/
theorem civilFromDays_bounds (n : Int) :
    1 ≤ (civilFromDays n).2.1 ∧ (civilFromDays n).2.1 ≤ 12 ∧
      1 ≤ (civilFromDays n).2.2 ∧ (civilFromDays n).2.2 ≤ 31 := by
  rw [civilFromDays_eq]
  have hdoe := civilDoe_le n
  have hdoy := doyOfDoe_le _ hdoe
  have h1 := monthOfDoy_bounds _ hdoy
  have h2 := dayOfDoy_bounds _ hdoy
  exact ⟨h1.1, h1.2, h2.1, h2.2⟩

/-! ### The `dateHelpers` period functions (source lines 34-57) -/

/-- `dateHelpers.getWeekStart`: subtract the day of week from the day of
month (via `setDate`) and zero the time of day. -/
def getWeekStart (date : JSDate) : JSDate :=
  let d := date
  let day := getDay d
  let diff := (getDate d : Int) - day
  setHoursZero (setDate d diff)

/-- `dateHelpers.getBiweekStart`: zero the time of day, then set the day
of month to 1 when it is at most 15 and to 16 otherwise. -/
def getBiweekStart (date : JSDate) : JSDate :=
  let d := setHoursZero date
  let dayOfMonth := getDate d
  let period : Int := if dayOfMonth ≤ 15 then 1 else 16
  setDate d period

/-- `dateHelpers.getMonthStart`: zero the time of day, then set the day
of month to 1. -/
def getMonthStart (date : JSDate) : JSDate :=
  let d := setHoursZero date
  setDate d 1

/-- Day-number form of `getWeekStart`. -/
theorem getWeekStart_days (d : JSDate) :
    (getWeekStart d).days = d.days - getDay d ∧ (getWeekStart d).ms = 0 := by
  refine ⟨?_, rfl⟩
  show d.days - (getDate d : Int) + ((getDate d : Int) - getDay d) = d.days - getDay d
  ring

/-- C3: `getWeekStart(d)` falls on a Sunday and `d - getWeekStart(d)` is
at least 0 and strictly less than 7 days, with the time of day zeroed. -/
theorem C3_getWeekStart_sunday (d : JSDate) (hms : d.ms < msPerDay) :
    getDay (getWeekStart d) = 0 ∧ (getWeekStart d).ms = 0 ∧
      0 ≤ msOf d - msOf (getWeekStart d) ∧
      msOf d - msOf (getWeekStart d) < 7 * (msPerDay : Int) := by
  obtain ⟨h1, h2⟩ := getWeekStart_days d
  unfold getDay at *
  unfold msOf
  rw [h1, h2]
  unfold msPerDay at *
  refine ⟨by omega, rfl, by omega, by omega⟩

/-- Witness for `C3_getWeekStart_sunday` at 2024-10-15 12:00. -/
theorem C3_getWeekStart_sunday_witness :
    getDay (getWeekStart ⟨20011, 43200000⟩) = 0 ∧ (getWeekStart ⟨20011, 43200000⟩).ms = 0 ∧
      0 ≤ msOf ⟨20011, 43200000⟩ - msOf (getWeekStart ⟨20011, 43200000⟩) ∧
      msOf ⟨20011, 43200000⟩ - msOf (getWeekStart ⟨20011, 43200000⟩) < 7 * (msPerDay : Int) :=
  C3_getWeekStart_sunday ⟨20011, 43200000⟩ (by decide)

/-- Civil form of `getBiweekStart`: the result has the same year and
month and day of month 1 (when the input day is at most 15) or 16. -/
theorem getBiweekStart_civil (d : JSDate) :
    civilFromDays (getBiweekStart d).days =
      ((civilFromDays d.days).1, (civilFromDays d.days).2.1,
        if (civilFromDays d.days).2.2 ≤ 15 then 1 else 16) := by
  have hbounds := civilFromDays_bounds d.days
  have hrt := daysFromCivil_civilFromDays d.days
  have hb : (getBiweekStart d).days =
      d.days - ((civilFromDays d.days).2.2 : Int) +
        (if (civilFromDays d.days).2.2 ≤ 15 then (1 : Int) else 16) := rfl
  have hk1 : 1 ≤ (if (civilFromDays d.days).2.2 ≤ 15 then (1 : Nat) else 16) := by
    split <;> omega
  have hk16 : (if (civilFromDays d.days).2.2 ≤ 15 then (1 : Nat) else 16) ≤ 16 := by
    split <;> omega
  have hshift := daysFromCivil_shift (civilFromDays d.days).1 (civilFromDays d.days).2.1
    (civilFromDays d.days).2.2 (if (civilFromDays d.days).2.2 ≤ 15 then 1 else 16)
    hbounds.2.2.1 hk1
  rw [hrt] at hshift
  have heq : (getBiweekStart d).days =
      daysFromCivil (civilFromDays d.days).1 (civilFromDays d.days).2.1
        (if (civilFromDays d.days).2.2 ≤ 15 then 1 else 16) := by
    rw [hb, hshift]
    split <;> norm_num
  rw [heq, civilFromDays_daysFromCivil _ _ _ hbounds.1 hbounds.2.1 hk1 hk16]

/-- C4: for every date `d`, `getBiweekStart(d)` keeps the year and month
of `d` and has day of month 1 when the day of `d` is at most 15 and 16
otherwise; consequently a timestamp on day 15 and a timestamp on day 16
of the same month fall into two different biweekly buckets. -/
theorem C4_getBiweekStart (d : JSDate) :
    (civilFromDays (getBiweekStart d).days).1 = (civilFromDays d.days).1 ∧
      (civilFromDays (getBiweekStart d).days).2.1 = (civilFromDays d.days).2.1 ∧
      (civilFromDays (getBiweekStart d).days).2.2 =
        (if (civilFromDays d.days).2.2 ≤ 15 then 1 else 16) ∧
      (∀ d2 : JSDate, (civilFromDays d2.days).1 = (civilFromDays d.days).1 →
        (civilFromDays d2.days).2.1 = (civilFromDays d.days).2.1 →
        (civilFromDays d.days).2.2 = 15 → (civilFromDays d2.days).2.2 = 16 →
        (getBiweekStart d).days ≠ (getBiweekStart d2).days) := by
  have h1 := getBiweekStart_civil d
  refine ⟨by rw [h1], by rw [h1], by rw [h1], ?_⟩
  intro d2 hy hm h15 h16 hdays
  have h2 := getBiweekStart_civil d2
  rw [hdays, h2, hy, hm, h15, h16] at h1
  have h3 := congrArg (fun t => t.2.2) h1
  norm_num at h3

/-- Witness for `C4_getBiweekStart` at 2024-10-15 (and 2024-10-16 for the
two-bucket part). -/
theorem C4_getBiweekStart_witness :
    (civilFromDays (getBiweekStart ⟨20011, 86340000⟩).days).1 =
        (civilFromDays (20011 : Int)).1 ∧
      (getBiweekStart ⟨20011, 86340000⟩).days ≠ (getBiweekStart ⟨20012, 60000⟩).days := by
  constructor
  · exact (C4_getBiweekStart ⟨20011, 86340000⟩).1
  · exact (C4_getBiweekStart ⟨20011, 86340000⟩).2.2.2 ⟨20012, 60000⟩
      (by decide) (by decide) (by decide) (by decide)

/-! ### `dateHelpers.formatDuration` (source lines 27-32) -/

/-- JS `String.prototype.padStart(n, c)`: prepend copies of `c` until the
length is at least `n`. -/
def jsPadStart (s : String) (n : Nat) (c : Char) : String :=
  String.mk (List.replicate (n - s.length) c) ++ s

/-- `dateHelpers.formatDuration`: `null` formats as `"0:00"`; otherwise
the hour part is `Math.floor(minutes / 60)` (floor division) and the
minute part is the truncating JS remainder `minutes % 60`, zero-padded to
two digits.  Minute counts are modelled as integers: every duration the
program stores is an integer, and the JS `NaN` guard has no counterpart
for integer inputs. -/
def formatDuration : Option Int → String
  | none => "0:00"
  | some minutes =>
    let h := minutes / 60
    let m := minutes.tmod 60
    toString h ++ ":" ++ jsPadStart (toString m) 2 '0'

/-- Evaluation of `formatDuration` on a nonnegative (Nat) minute count. -/
theorem formatDuration_natCast (k : Nat) :
    formatDuration (some (k : Int)) =
      toString (k / 60) ++ ":" ++ jsPadStart (toString (k % 60)) 2 '0' := rfl

/-- Padding a decimal numeral below 60 to two digits adds a leading zero
exactly below 10. -/
theorem jsPadStart_two (r : Nat) (h : r < 60) :
    jsPadStart (toString r) 2 '0' = if r < 10 then "0" ++ toString r else toString r := by
  interval_cases r <;> rfl

/-- C5: for minute counts `m ≥ 0`, `formatDuration` renders
`H:MM` with `H = floor(m / 60)` unpadded and `MM = m mod 60` zero-padded
to two digits, and `formatDuration(null) = "0:00"`. -/
theorem C5_formatDuration (m : Int) (hm : 0 ≤ m) :
    formatDuration (some m) =
      toString (m.toNat / 60) ++ ":" ++
        (if m.toNat % 60 < 10 then "0" ++ toString (m.toNat % 60)
          else toString (m.toNat % 60)) ∧
      formatDuration none = "0:00" := by
  obtain ⟨k, rfl⟩ : ∃ k : Nat, m = (k : Int) := ⟨m.toNat, (Int.toNat_of_nonneg hm).symm⟩
  refine ⟨?_, rfl⟩
  rw [formatDuration_natCast, Int.toNat_natCast, jsPadStart_two _ (Nat.mod_lt _ (by norm_num))]

/-- Witness for `C5_formatDuration` at 135 minutes (which renders as
`"2:15"`). -/
theorem C5_formatDuration_witness :
    formatDuration (some 135) =
      toString ((135 : Int).toNat / 60) ++ ":" ++
        (if (135 : Int).toNat % 60 < 10 then "0" ++ toString ((135 : Int).toNat % 60)
          else toString ((135 : Int).toNat % 60)) ∧
      formatDuration none = "0:00" :=
  C5_formatDuration 135 (by norm_num)

/-! ### Sessions and the aggregation (source lines 248-292) -/

/-- A session document as delivered by the store listener (source lines
144-156): `end_time` and `duration` are `null` (`none`) while the
session is open.  Durations are integers (the program only ever stores
`Math.round` results). -/
structure Session where
  id : String
  start_time : JSDate
  end_time : Option JSDate
  duration : Option Int
  jobName : String
  deriving Repr, DecidableEq

/-- One period bucket built by `groupedSessions`. -/
structure PeriodGroup where
  start : JSDate
  sessions : List Session
  totalMinutes : Int
  deriving Repr, DecidableEq

/-- The period function selected by `totalPeriod` (source lines 252-261;
the final `else` defaults to weekly for any other mode string). -/
def periodStartFn (mode : String) : JSDate → JSDate :=
  if mode = "monthly" then getMonthStart
  else if mode = "biweekly" then getBiweekStart
  else getWeekStart

/-- Bucket membership test: the session is completed (`duration` not
`null`) and its period start has the given key.  The JS key is the ISO
calendar-date string `periodStartDate.toISOString().split("T")[0]`;
every period start has its time of day zeroed, so (with local time =
UTC) that string determines and is determined by the day number, which
therefore serves as the bucket key. -/
def inBucket (f : JSDate → JSDate) (key : Int) (s : Session) : Bool :=
  s.duration.isSome && ((f s.start_time).days == key)

/-- Append a completed session to its bucket in the association list of
groups (insertion order is preserved, as for JS object keys; a new key
is appended at the end). -/
def pushSession (key : Int) (pstart : JSDate) (s : Session) (dur : Int) :
    List (Int × PeriodGroup) → List (Int × PeriodGroup)
  | [] => [(key, ⟨pstart, [s], dur⟩)]
  | (k, g) :: rest =>
    if k = key then
      (k, ⟨g.start, g.sessions ++ [s], g.totalMinutes + dur⟩) :: rest
    else
      (k, g) :: pushSession key pstart s dur rest

/-- One step of the `sessions.forEach` loop in `groupedSessions`
(source lines 265-283): sessions with `duration === null` are skipped;
otherwise the session is appended to its period bucket and the bucket
total and grand total are increased by its duration. -/
def stepSession (f : JSDate → JSDate) (acc : List (Int × PeriodGroup) × Int)
    (s : Session) : List (Int × PeriodGroup) × Int :=
  match s.duration with
  | none => acc
  | some dur =>
    let pstart := f s.start_time
    (pushSession pstart.days pstart s dur acc.1, acc.2 + dur)

/-- The whole `forEach` loop of `groupedSessions`. -/
def buildGroups (f : JSDate → JSDate) (sessions : List Session) :
    List (Int × PeriodGroup) × Int :=
  sessions.foldl (stepSession f) ([], 0)

/-- Descending order on keyed groups, as produced by the JS comparator
`(a, b) => new Date(b) - new Date(a)` on the ISO date keys. -/
def keyGE (p q : Int × PeriodGroup) : Prop := q.1 ≤ p.1

instance : DecidableRel keyGE := fun p q => inferInstanceAs (Decidable (q.1 ≤ p.1))

instance : IsTotal (Int × PeriodGroup) keyGE := ⟨fun p q => le_total q.1 p.1⟩

instance : IsTrans (Int × PeriodGroup) keyGE := ⟨fun _ _ _ h1 h2 => le_trans h2 h1⟩

/-- `groupedSessions` (source lines 248-290): the JS function returns the
empty object `{}` on an empty session list (modelled as `none`), and
otherwise an object carrying `sortedGroups` and `totalDurationMinutes`.
The sort is modelled by insertion sort over the keyed groups: the keys
are pairwise distinct, so every comparison sort (including the JS
engine's) produces the same uniquely determined descending order. -/
def groupedSessions (sessions : List Session) (mode : String) :
    Option (List PeriodGroup × Int) :=
  if sessions.isEmpty then none
  else
    let built := buildGroups (periodStartFn mode) sessions
    some ((built.1.insertionSort keyGE).map Prod.snd, built.2)

/-- The group list the UI renders (`groupedSessions.sortedGroups?` falls
back to nothing when the object is empty). -/
def sortedGroupsOf (sessions : List Session) (mode : String) : List PeriodGroup :=
  match groupedSessions sessions mode with
  | none => []
  | some (gs, _) => gs

/-- `totalMinutesAcrossAllPeriods` (source line 292):
`groupedSessions.totalDurationMinutes || 0`. -/
def totalMinutesAcrossAllPeriods (sessions : List Session) (mode : String) : Int :=
  match groupedSessions sessions mode with
  | none => 0
  | some (_, t) => t

/-- C6: aggregation of an empty session list yields no period groups and
a zero grand total, for every grouping mode. -/
theorem C6_empty_aggregation (mode : String) :
    sortedGroupsOf [] mode = [] ∧ totalMinutesAcrossAllPeriods [] mode = 0 :=
  ⟨rfl, rfl⟩

/-- A session in one bucket is in no other bucket. -/
theorem inBucket_ne (f : JSDate → JSDate) (k key : Int) (s : Session)
    (h : inBucket f key s = true) (hne : k ≠ key) : inBucket f k s = false := by
  unfold inBucket at h ⊢
  simp only [Bool.and_eq_true, beq_iff_eq] at h
  simp only [Bool.and_eq_false_iff, beq_eq_false_iff_ne]
  exact Or.inr (h.2 ▸ fun hk => hne hk.symm)

/-- Keys after `pushSession`: unchanged when the key is present, the key
appended at the end otherwise. -/
theorem pushSession_keys (key : Int) (ps : JSDate) (s : Session) (dur : Int)
    (gs : List (Int × PeriodGroup)) :
    (pushSession key ps s dur gs).map Prod.fst =
      if key ∈ gs.map Prod.fst then gs.map Prod.fst else gs.map Prod.fst ++ [key] := by
  induction gs with
  | nil => simp [pushSession]
  | cons p rest ih =>
    obtain ⟨k, g⟩ := p
    by_cases hk : k = key
    · subst hk
      simp [pushSession]
    · rw [show pushSession key ps s dur ((k, g) :: rest) =
        (k, g) :: pushSession key ps s dur rest by simp [pushSession, hk]]
      simp only [List.map_cons, ih, List.mem_cons]
      by_cases hmem : key ∈ rest.map Prod.fst
      · rw [if_pos hmem, if_pos (Or.inr hmem)]
      · rw [if_neg hmem, if_neg (by rintro (h | h); exact hk h.symm; exact hmem h)]
        simp

/-- `pushSession` preserves the bucket invariants: keys name their
group's period start, keys stay pairwise distinct, and every bucket
holds exactly the matching processed sessions in input order. -/
theorem pushSession_props (f : JSDate → JSDate) (key : Int) (ps : JSDate)
    (s : Session) (dur : Int) (gs : List (Int × PeriodGroup)) (processed : List Session)
    (hkeyps : ps.days = key)
    (hbucket : inBucket f key s = true)
    (hkey : ∀ p ∈ gs, p.1 = p.2.start.days)
    (hnd : (gs.map Prod.fst).Nodup)
    (hcontent : ∀ p ∈ gs, p.2.sessions = processed.filter (inBucket f p.1))
    (hmissing : key ∉ gs.map Prod.fst → processed.filter (inBucket f key) = []) :
    (∀ p ∈ pushSession key ps s dur gs, p.1 = p.2.start.days) ∧
      ((pushSession key ps s dur gs).map Prod.fst).Nodup ∧
      (∀ p ∈ pushSession key ps s dur gs,
        p.2.sessions = (processed ++ [s]).filter (inBucket f p.1)) := by
  induction gs with
  | nil =>
    refine ⟨?_, by simp [pushSession], ?_⟩
    · intro p hp
      simp only [pushSession, List.mem_singleton] at hp
      subst hp
      exact hkeyps.symm
    · intro p hp
      simp only [pushSession, List.mem_singleton] at hp
      subst hp
      simp only [List.filter_append, hmissing (by simp), List.nil_append]
      simp [List.filter, hbucket]
  | cons q rest ih =>
    obtain ⟨k, g⟩ := q
    by_cases hk : k = key
    · subst hk
      rw [show pushSession k ps s dur ((k, g) :: rest) =
        (k, ⟨g.start, g.sessions ++ [s], g.totalMinutes + dur⟩) :: rest by
          simp [pushSession]]
      refine ⟨?_, ?_, ?_⟩
      · intro p hp
        rcases List.mem_cons.mp hp with h | h
        · subst h
          exact hkey (k, g) (by simp)
        · exact hkey p (List.mem_cons_of_mem _ h)
      · simpa using hnd
      · intro p hp
        rcases List.mem_cons.mp hp with h | h
        · subst h
          simp only [List.filter_append]
          rw [← hcontent (k, g) (by simp)]
          simp [List.filter, hbucket]
        · have hne : p.1 ≠ k := by
            intro heq
            have hmem : p.1 ∈ rest.map Prod.fst := List.mem_map_of_mem Prod.fst h
            rw [heq] at hmem
            exact (List.nodup_cons.mp hnd).1 hmem
          rw [List.filter_append, ← hcontent p (List.mem_cons_of_mem _ h)]
          simp [List.filter, inBucket_ne f p.1 k s hbucket hne]
    · rw [show pushSession key ps s dur ((k, g) :: rest) =
        (k, g) :: pushSession key ps s dur rest by simp [pushSession, hk]]
      have hndr : (rest.map Prod.fst).Nodup := (List.nodup_cons.mp hnd).2
      have hmr : key ∉ rest.map Prod.fst → processed.filter (inBucket f key) = [] := by
        intro hnm
        exact hmissing (by
          simp only [List.map_cons, List.mem_cons]
          rintro (h | h)
          · exact hk h.symm
          · exact hnm h)
      obtain ⟨ih1, ih2, ih3⟩ := ih (fun p hp => hkey p (List.mem_cons_of_mem _ hp)) hndr
        (fun p hp => hcontent p (List.mem_cons_of_mem _ hp)) hmr
      refine ⟨?_, ?_, ?_⟩
      · intro p hp
        rcases List.mem_cons.mp hp with h | h
        · subst h
          exact hkey (k, g) (by simp)
        · exact ih1 p h
      · simp only [List.map_cons, List.nodup_cons]
        refine ⟨?_, ih2⟩
        rw [pushSession_keys]
        have hknr : k ∉ rest.map Prod.fst := (List.nodup_cons.mp hnd).1
        by_cases hmem : key ∈ rest.map Prod.fst
        · rw [if_pos hmem]; exact hknr
        · rw [if_neg hmem]
          simp only [List.mem_append, List.mem_singleton]
          rintro (h | h)
          · exact hknr h
          · exact hk h
      · intro p hp
        rcases List.mem_cons.mp hp with h | h
        · subst h
          have hne : (k, g).1 ≠ key := hk
          rw [List.filter_append, ← hcontent (k, g) (by simp)]
          simp [List.filter, inBucket_ne f (k, g).1 key s hbucket hne]
        · exact ih3 p h

/-- Invariant of the aggregation loop: after folding over the remaining
sessions, keys still name their group's period start, keys are pairwise
distinct, every bucket holds exactly the matching sessions of the
processed list in input order, and absent keys match no processed
session. -/
theorem foldGroups_invariant (f : JSDate → JSDate) (l : List Session)
    (acc : List (Int × PeriodGroup) × Int) (processed : List Session)
    (hkey : ∀ p ∈ acc.1, p.1 = p.2.start.days)
    (hnd : (acc.1.map Prod.fst).Nodup)
    (hcontent : ∀ p ∈ acc.1, p.2.sessions = processed.filter (inBucket f p.1))
    (hmissing : ∀ key : Int, key ∉ acc.1.map Prod.fst →
      processed.filter (inBucket f key) = []) :
    (∀ p ∈ (l.foldl (stepSession f) acc).1, p.1 = p.2.start.days) ∧
      ((l.foldl (stepSession f) acc).1.map Prod.fst).Nodup ∧
      (∀ p ∈ (l.foldl (stepSession f) acc).1,
        p.2.sessions = (processed ++ l).filter (inBucket f p.1)) ∧
      (∀ key : Int, key ∉ (l.foldl (stepSession f) acc).1.map Prod.fst →
        (processed ++ l).filter (inBucket f key) = []) := by
  induction l generalizing acc processed with
  | nil =>
    rw [List.foldl_nil, List.append_nil]
    exact ⟨hkey, hnd, hcontent, hmissing⟩
  | cons s t ih =>
    rw [List.foldl_cons, show processed ++ s :: t = (processed ++ [s]) ++ t by simp]
    cases hd : s.duration with
    | none =>
      have hb : ∀ key : Int, inBucket f key s = false := by
        intro key
        unfold inBucket
        rw [hd]
        rfl
      have hstep : stepSession f acc s = acc := by
        unfold stepSession
        rw [hd]
      rw [hstep]
      refine ih acc (processed ++ [s]) hkey hnd ?_ ?_
      · intro p hp
        rw [List.filter_append, hcontent p hp]
        simp [List.filter, hb]
      · intro key hkm
        rw [List.filter_append, hmissing key hkm]
        simp [List.filter, hb]
    | some dur =>
      have hb : inBucket f (f s.start_time).days s = true := by
        unfold inBucket
        rw [hd]
        simp
      have hstep : stepSession f acc s =
          (pushSession (f s.start_time).days (f s.start_time) s dur acc.1, acc.2 + dur) := by
        unfold stepSession
        rw [hd]
      rw [hstep]
      obtain ⟨p1, p2, p3⟩ := pushSession_props f (f s.start_time).days (f s.start_time) s dur
        acc.1 processed rfl hb hkey hnd hcontent (hmissing _)
      refine ih _ (processed ++ [s]) p1 p2 p3 ?_
      · intro key hkm
        have hkold : key ∉ acc.1.map Prod.fst := by
          intro hmem
          apply hkm
          rw [pushSession_keys]
          by_cases hc : (f s.start_time).days ∈ acc.1.map Prod.fst
          · rwa [if_pos hc]
          · rw [if_neg hc]
            exact List.mem_append_left _ hmem
        have hkne : key ≠ (f s.start_time).days := by
          intro heq
          apply hkm
          rw [pushSession_keys]
          by_cases hc : (f s.start_time).days ∈ acc.1.map Prod.fst
          · rw [if_pos hc, heq]; exact hc
          · rw [if_neg hc, heq]
            exact List.mem_append_right _ (by simp)
        rw [List.filter_append, hmissing key hkold]
        simp [List.filter, inBucket_ne f key (f s.start_time).days s hb hkne]

/-- The bucket invariants hold for the full aggregation loop. -/
theorem buildGroups_props (f : JSDate → JSDate) (sessions : List Session) :
    (∀ p ∈ (buildGroups f sessions).1, p.1 = p.2.start.days) ∧
      ((buildGroups f sessions).1.map Prod.fst).Nodup ∧
      (∀ p ∈ (buildGroups f sessions).1,
        p.2.sessions = sessions.filter (inBucket f p.1)) := by
  obtain ⟨h1, h2, h3, _⟩ := foldGroups_invariant f sessions ([], 0) []
    (by simp) (by simp) (by simp) (by simp)
  exact ⟨h1, h2, by simpa using h3⟩

/-- `groupedSessions` on a nonempty session list. -/
theorem groupedSessions_ne (sessions : List Session) (mode : String)
    (hne : sessions ≠ []) :
    groupedSessions sessions mode =
      some ((((buildGroups (periodStartFn mode) sessions).1.insertionSort keyGE).map
        Prod.snd), (buildGroups (periodStartFn mode) sessions).2) := by
  unfold groupedSessions
  rw [if_neg (by simp [List.isEmpty_iff, hne])]

/-- The rendered group list on a nonempty session list. -/
theorem sortedGroupsOf_ne (sessions : List Session) (mode : String)
    (hne : sessions ≠ []) :
    sortedGroupsOf sessions mode =
      ((buildGroups (periodStartFn mode) sessions).1.insertionSort keyGE).map Prod.snd := by
  unfold sortedGroupsOf
  rw [groupedSessions_ne sessions mode hne]

/-- The grand total on a nonempty session list. -/
theorem totalMinutes_ne (sessions : List Session) (mode : String)
    (hne : sessions ≠ []) :
    totalMinutesAcrossAllPeriods sessions mode =
      (buildGroups (periodStartFn mode) sessions).2 := by
  unfold totalMinutesAcrossAllPeriods
  rw [groupedSessions_ne sessions mode hne]

/-- Every rendered group holds exactly the completed sessions of its
bucket, in input order. -/
theorem mem_sortedGroupsOf_filter (sessions : List Session) (mode : String)
    (g : PeriodGroup) (hg : g ∈ sortedGroupsOf sessions mode) :
    g.sessions = sessions.filter (inBucket (periodStartFn mode) g.start.days) := by
  by_cases hne : sessions = []
  · subst hne
    simp [sortedGroupsOf, groupedSessions] at hg
  · rw [sortedGroupsOf_ne sessions mode hne] at hg
    obtain ⟨p, hp, hpg⟩ := List.mem_map.mp hg
    have hpmem : p ∈ (buildGroups (periodStartFn mode) sessions).1 :=
      (List.perm_insertionSort keyGE _).mem_iff.mp hp
    obtain ⟨h1, _, h3⟩ := buildGroups_props (periodStartFn mode) sessions
    have hkey := h1 p hpmem
    have hcontent := h3 p hpmem
    rw [← hpg, ← hkey]
    exact hcontent

/-- The grand total accumulated by the aggregation loop. -/
theorem foldGroups_total (f : JSDate → JSDate) (l : List Session)
    (acc : List (Int × PeriodGroup) × Int) :
    (l.foldl (stepSession f) acc).2 = acc.2 + (l.map (fun s => s.duration.getD 0)).sum := by
  induction l generalizing acc with
  | nil => simp
  | cons s t ih =>
    rw [List.foldl_cons, ih]
    cases hd : s.duration with
    | none =>
      have hstep : stepSession f acc s = acc := by
        unfold stepSession
        rw [hd]
      rw [hstep]
      simp only [List.map_cons, List.sum_cons, hd, Option.getD_none]
      ring
    | some v =>
      have hstep : stepSession f acc s =
          (pushSession (f s.start_time).days (f s.start_time) s v acc.1, acc.2 + v) := by
        unfold stepSession
        rw [hd]
      rw [hstep]
      simp only [List.map_cons, List.sum_cons, hd, Option.getD_some]
      ring

/-- C10: within each period group, the sessions appear in the same
relative order as in the input session list (each group equals the
order-preserving filter of the input to its bucket). -/
theorem C10_bucket_order (sessions : List Session) (mode : String)
    (g : PeriodGroup) (hg : g ∈ sortedGroupsOf sessions mode) :
    g.sessions = sessions.filter (inBucket (periodStartFn mode) g.start.days) :=
  mem_sortedGroupsOf_filter sessions mode g hg

/-- Witness for `C10_bucket_order`: one completed session on 2024-10-15
in weekly mode; its group starts on Sunday 2024-10-13 (day 20009). -/
theorem C10_bucket_order_witness :
    (⟨⟨20009, 0⟩, [⟨"a", ⟨20011, 0⟩, some ⟨20011, 1800000⟩, some 30, "X"⟩], 30⟩ :
        PeriodGroup).sessions =
      ([⟨"a", ⟨20011, 0⟩, some ⟨20011, 1800000⟩, some 30, "X"⟩] : List Session).filter
        (inBucket (periodStartFn "weekly")
          (⟨⟨20009, 0⟩, [⟨"a", ⟨20011, 0⟩, some ⟨20011, 1800000⟩, some 30, "X"⟩], 30⟩ :
            PeriodGroup).start.days) :=
  C10_bucket_order [⟨"a", ⟨20011, 0⟩, some ⟨20011, 1800000⟩, some 30, "X"⟩] "weekly"
    ⟨⟨20009, 0⟩, [⟨"a", ⟨20011, 0⟩, some ⟨20011, 1800000⟩, some 30, "X"⟩], 30⟩ (by decide)

/-- C9: on every nonempty session list the rendered period groups are
sorted by period start in strictly descending order. -/
theorem C9_groups_sorted_descending (sessions : List Session) (mode : String)
    (hne : sessions ≠ []) :
    (sortedGroupsOf sessions mode).Pairwise
      (fun g1 g2 => g2.start.days < g1.start.days) := by
  rw [sortedGroupsOf_ne sessions mode hne, List.pairwise_map]
  have hsorted : ((buildGroups (periodStartFn mode) sessions).1.insertionSort keyGE).Pairwise
      keyGE := List.sorted_insertionSort keyGE _
  obtain ⟨h1, h2, _⟩ := buildGroups_props (periodStartFn mode) sessions
  have hperm := List.perm_insertionSort keyGE (buildGroups (periodStartFn mode) sessions).1
  have hndsorted :
      (((buildGroups (periodStartFn mode) sessions).1.insertionSort keyGE).map
        Prod.fst).Nodup :=
    (hperm.map Prod.fst).symm.nodup h2
  have hne' : ((buildGroups (periodStartFn mode) sessions).1.insertionSort keyGE).Pairwise
      (fun p q => p.1 ≠ q.1) := by
    unfold List.Nodup at hndsorted
    rwa [List.pairwise_map] at hndsorted
  refine List.Pairwise.imp_of_mem ?_ (hsorted.and hne')
  intro p q hp hq hpq
  have hkp := h1 p (hperm.mem_iff.mp hp)
  have hkq := h1 q (hperm.mem_iff.mp hq)
  rw [← hkp, ← hkq]
  exact lt_of_le_of_ne hpq.1 (fun h => hpq.2 h.symm)

/-- Witness for `C9_groups_sorted_descending`: two completed sessions in
two different weeks, weekly mode. -/
theorem C9_groups_sorted_descending_witness :
    (sortedGroupsOf
      [⟨"a", ⟨20011, 0⟩, some ⟨20011, 1800000⟩, some 30, "X"⟩,
        ⟨"b", ⟨20004, 0⟩, some ⟨20004, 2700000⟩, some 45, "Y"⟩] "weekly").Pairwise
      (fun g1 g2 => g2.start.days < g1.start.days) :=
  C9_groups_sorted_descending
    [⟨"a", ⟨20011, 0⟩, some ⟨20011, 1800000⟩, some 30, "X"⟩,
      ⟨"b", ⟨20004, 0⟩, some ⟨20004, 2700000⟩, some 45, "Y"⟩] "weekly" (by decide)

/-- C2 counterexample: the aggregation filters on `duration === null`,
not on `end_time`.  A session with `end_time` absent but `duration`
present is counted in full: the grand total is 42, while the sum of
durations over the sessions with `end_time` present is 0. -/
theorem C2_counterexample :
    totalMinutesAcrossAllPeriods [⟨"x", ⟨20011, 0⟩, none, some 42, "J"⟩] "weekly" = 42 ∧
      (([⟨"x", ⟨20011, 0⟩, none, some 42, "J"⟩] : List Session).map
        (fun s => if s.end_time.isSome then s.duration.getD 0 else 0)).sum = 0 := by
  decide

/-- C2 (amended): on session lists satisfying the data-model invariant
that `durationMinutes` is present exactly when `endTime` is present, the
grand total equals the sum of `durationMinutes` over exactly the
sessions with `endTime` present (open sessions contribute 0), and every
session placed in any group has `endTime` present (so open sessions
contribute 0 to every group total). -/
theorem C2_grand_total (sessions : List Session) (mode : String)
    (hinv : ∀ s ∈ sessions, s.duration.isSome = s.end_time.isSome) :
    totalMinutesAcrossAllPeriods sessions mode =
      (sessions.map (fun s => if s.end_time.isSome then s.duration.getD 0 else 0)).sum ∧
      ∀ g ∈ sortedGroupsOf sessions mode, ∀ s ∈ g.sessions, s.end_time.isSome = true := by
  constructor
  · by_cases hne : sessions = []
    · subst hne
      rfl
    · rw [totalMinutes_ne sessions mode hne]
      unfold buildGroups
      rw [foldGroups_total]
      simp only [zero_add]
      congr 1
      apply List.map_congr_left
      intro s hs
      have h := hinv s hs
      cases hd : s.duration with
      | none =>
        have he : s.end_time.isSome = false := by
          rw [← h, hd]
          rfl
        rw [he]
        simp
      | some v =>
        have he : s.end_time.isSome = true := by
          rw [← h, hd]
          rfl
        rw [he]
        simp
  · intro g hg s hs
    have hcontent := mem_sortedGroupsOf_filter sessions mode g hg
    rw [hcontent] at hs
    have hmem := List.mem_filter.mp hs
    have hdur : s.duration.isSome = true := by
      have h2 := hmem.2
      unfold inBucket at h2
      rw [Bool.and_eq_true] at h2
      exact h2.1
    rw [← hinv s hmem.1]
    exact hdur

/-- Witness for `C2_grand_total`: one completed and one open session in
weekly mode (the invariant holds for both). -/
theorem C2_grand_total_witness :
    totalMinutesAcrossAllPeriods
        [⟨"a", ⟨20011, 0⟩, some ⟨20011, 1800000⟩, some 30, "X"⟩,
          ⟨"b", ⟨20012, 0⟩, none, none, "Y"⟩] "weekly" =
      (([⟨"a", ⟨20011, 0⟩, some ⟨20011, 1800000⟩, some 30, "X"⟩,
          ⟨"b", ⟨20012, 0⟩, none, none, "Y"⟩] : List Session).map
        (fun s => if s.end_time.isSome then s.duration.getD 0 else 0)).sum ∧
      ∀ g ∈ sortedGroupsOf
          [⟨"a", ⟨20011, 0⟩, some ⟨20011, 1800000⟩, some 30, "X"⟩,
            ⟨"b", ⟨20012, 0⟩, none, none, "Y"⟩] "weekly",
        ∀ s ∈ g.sessions, s.end_time.isSome = true :=
  C2_grand_total
    [⟨"a", ⟨20011, 0⟩, some ⟨20011, 1800000⟩, some 30, "X"⟩,
      ⟨"b", ⟨20012, 0⟩, none, none, "Y"⟩] "weekly" (by decide)

/-! ### Session lifecycle (source lines 180-231 and the start/stop
button, lines 358-380)

The component state relevant to the lifecycle is the session list
delivered by the store listener, the job-name input, and whether the
backend handles are available (`db` and `userId` non-null, summarised by
`ready`).  Persistence is synchronous in the model: the effect of a
successful `addDoc` / `updateDoc` is reflected directly in the session
list that the next snapshot delivers (ordered by `start_time`
descending, so a session started now is prepended). -/

structure AppState where
  ready : Bool
  sessions : List Session
  jobInput : String
  deriving Repr, DecidableEq

/-- `startTracking` (source lines 180-198): when the backend is ready it
unconditionally creates a new open session with `startTime = now`,
`end_time = null`, `duration = null` and the trimmed job name (defaulted
to `"Unspecified Project"` when blank).  There is no check of the
current tracking state. -/
def startTracking (now : JSDate) (newId : String) (st : AppState) : AppState :=
  if st.ready then
    { st with sessions :=
        ⟨newId, now, none, none,
          if st.jobInput.trim = "" then "Unspecified Project" else st.jobInput.trim⟩ ::
          st.sessions }
  else st

/-- `Math.round(durationMs / (1000 * 60))`: the rounded minute count,
`floor(x + 1/2)` of the exact millisecond quotient (JS `Math.round`
rounds halves toward positive infinity). -/
def jsRoundMinutes (durationMs : Int) : Int := (durationMs + 30000) / 60000

/-- `stopTracking` (source lines 200-231): find the first session
without `end_time`; when none exists, warn and do nothing.  Otherwise
set its `end_time` to now and its `duration` to the rounded minute
count, and clear the job input (`updateDoc` targets the session by id). -/
def stopTracking (now : JSDate) (st : AppState) : AppState :=
  if st.ready then
    match st.sessions.find? (fun s => s.end_time.isNone) with
    | none => st
    | some a =>
      { st with
        sessions := st.sessions.map (fun s =>
          if s.id = a.id then
            { s with
                end_time := some now
                duration := some (jsRoundMinutes (msOf now - msOf a.start_time)) }
          else s),
        jobInput := "" }
  else st

/-- `isTracking` as maintained by the snapshot listener (source lines
158-160): some session has no `end_time`. -/
def isTracking (st : AppState) : Bool := st.sessions.any (fun s => s.end_time.isNone)

/-- The start/stop button (source line 360):
`onClick={isTracking ? stopTracking : startTracking}`. -/
def clickStartStop (now : JSDate) (newId : String) (st : AppState) : AppState :=
  if isTracking st then stopTracking now st else startTracking now newId st

/-- Number of open sessions (sessions lacking `end_time`). -/
def openCount (l : List Session) : Nat := l.countP (fun s => s.end_time.isNone)

/-- C7: calling `stopTracking` when no session is open is a no-op: the
state is returned unchanged (no session modified, no error raised) and
remains idle. -/
theorem C7_stop_noop (now : JSDate) (st : AppState)
    (h : isTracking st = false) :
    stopTracking now st = st ∧ isTracking (stopTracking now st) = false := by
  have heq : stopTracking now st = st := by
    unfold stopTracking
    have hfind : st.sessions.find? (fun s => s.end_time.isNone) = none := by
      rw [List.find?_eq_none]
      intro s hs
      unfold isTracking at h
      have h2 := (List.any_eq_false.mp h) s hs
      simpa using h2
    split
    · rw [hfind]
    · rfl
  refine ⟨heq, ?_⟩
  rw [heq]
  exact h

/-- Witness for `C7_stop_noop`: a state with one completed session. -/
theorem C7_stop_noop_witness :
    stopTracking ⟨0, 7200000⟩
        ⟨true, [⟨"a", ⟨0, 0⟩, some ⟨0, 3600000⟩, some 60, "X"⟩], ""⟩ =
      ⟨true, [⟨"a", ⟨0, 0⟩, some ⟨0, 3600000⟩, some 60, "X"⟩], ""⟩ ∧
      isTracking (stopTracking ⟨0, 7200000⟩
        ⟨true, [⟨"a", ⟨0, 0⟩, some ⟨0, 3600000⟩, some 60, "X"⟩], ""⟩) = false :=
  C7_stop_noop ⟨0, 7200000⟩
    ⟨true, [⟨"a", ⟨0, 0⟩, some ⟨0, 3600000⟩, some 60, "X"⟩], ""⟩ (by decide)

/-- C1 counterexample: `startTracking` itself performs no Active-state
check.  Invoked on a state whose session list already has an open
session, it creates a second one: afterwards two sessions lack
`end_time`, violating the claim that the request is rejected and that at
most one session lacks `endTime` after the call. -/
theorem C1_counterexample :
    isTracking ⟨true, [⟨"a", ⟨0, 0⟩, none, none, "X"⟩], "X"⟩ = true ∧
      (startTracking ⟨0, 60000⟩ "b"
        ⟨true, [⟨"a", ⟨0, 0⟩, none, none, "X"⟩], "X"⟩).sessions.length = 2 ∧
      openCount (startTracking ⟨0, 60000⟩ "b"
        ⟨true, [⟨"a", ⟨0, 0⟩, none, none, "X"⟩], "X"⟩).sessions = 2 := by
  decide

/-- C1 (amended): the Active-state guard lives in the button dispatch,
not in `startTracking`: the UI button invokes `stopTracking` whenever
some session is open and `startTracking` only otherwise, so a button
press preserves the at-most-one-open-session invariant. -/
theorem C1_click_preserves_invariant (now : JSDate) (newId : String) (st : AppState)
    (h : openCount st.sessions ≤ 1) :
    openCount (clickStartStop now newId st).sessions ≤ 1 := by
  unfold clickStartStop
  by_cases ht : isTracking st
  · rw [if_pos ht]
    unfold stopTracking
    by_cases hr : st.ready
    · rw [if_pos hr]
      cases hfind : st.sessions.find? (fun s => s.end_time.isNone) with
      | none => exact h
      | some a =>
        unfold openCount at h ⊢
        rw [List.countP_map]
        refine le_trans (List.countP_mono_left ?_) h
        intro s _ hp
        simp only [Function.comp] at hp
        by_cases hid : s.id = a.id
        · rw [if_pos hid] at hp
          simp at hp
        · rwa [if_neg hid] at hp
    · rw [if_neg hr]
      exact h
  · rw [if_neg ht]
    have h0 : openCount st.sessions = 0 := by
      unfold openCount
      rw [List.countP_eq_zero]
      intro s hs
      unfold isTracking at ht
      have h2 := (List.any_eq_false.mp (Bool.of_not_eq_true ht)) s hs
      simpa using h2
    unfold startTracking
    by_cases hr : st.ready
    · rw [if_pos hr]
      unfold openCount at h0 ⊢
      simp [List.countP_cons, h0]
    · rw [if_neg hr]
      exact h

/-- Witness for `C1_click_preserves_invariant`: pressing the button on a
state with one open session. -/
theorem C1_click_preserves_invariant_witness :
    openCount (clickStartStop ⟨0, 60000⟩ "b"
      ⟨true, [⟨"a", ⟨0, 0⟩, none, none, "X"⟩], "X"⟩).sessions ≤ 1 :=
  C1_click_preserves_invariant ⟨0, 60000⟩ "b"
    ⟨true, [⟨"a", ⟨0, 0⟩, none, none, "X"⟩], "X"⟩ (by decide)

/-- C8: stopping from the Active state writes `end_time = now` on the
open session and a duration that is `(now - startTime)` in minutes
rounded to the nearest whole minute with halves rounding up: the written
`d` is the unique integer with
`60000 * d - 30000 <= now - startTime < 60000 * d + 30000` (in
milliseconds, ties going to the larger minute). -/
theorem C8_stop_duration (now : JSDate) (st : AppState) (a : Session)
    (hr : st.ready = true)
    (hfind : st.sessions.find? (fun s => s.end_time.isNone) = some a) :
    ∃ d : Int,
      60000 * d - 30000 ≤ msOf now - msOf a.start_time ∧
        msOf now - msOf a.start_time < 60000 * d + 30000 ∧
        (stopTracking now st).sessions = st.sessions.map (fun s =>
          if s.id = a.id then
            { s with end_time := some now, duration := some d }
          else s) := by
  refine ⟨jsRoundMinutes (msOf now - msOf a.start_time), ?_, ?_, ?_⟩
  · unfold jsRoundMinutes
    omega
  · unfold jsRoundMinutes
    omega
  · unfold stopTracking
    rw [hr, hfind]
    rfl

/-- Witness for `C8_stop_duration`: one open session started at the
epoch, stopped 61.5 minutes later (duration rounds up to 62). -/
theorem C8_stop_duration_witness :
    ∃ d : Int,
      60000 * d - 30000 ≤ msOf ⟨0, 3690000⟩ -
          msOf (⟨"a", ⟨0, 0⟩, none, none, "X"⟩ : Session).start_time ∧
        msOf ⟨0, 3690000⟩ - msOf (⟨"a", ⟨0, 0⟩, none, none, "X"⟩ : Session).start_time <
          60000 * d + 30000 ∧
        (stopTracking ⟨0, 3690000⟩
            ⟨true, [⟨"a", ⟨0, 0⟩, none, none, "X"⟩], "X"⟩).sessions =
          ([⟨"a", ⟨0, 0⟩, none, none, "X"⟩] : List Session).map (fun s =>
            if s.id = (⟨"a", ⟨0, 0⟩, none, none, "X"⟩ : Session).id then
              { s with end_time := some ⟨0, 3690000⟩, duration := some d }
            else s) :=
  C8_stop_duration ⟨0, 3690000⟩ ⟨true, [⟨"a", ⟨0, 0⟩, none, none, "X"⟩], "X"⟩
    ⟨"a", ⟨0, 0⟩, none, none, "X"⟩ rfl (by decide)
